import Mathlib

/-!
Verification development for the universal-data-loader repository.

The Python sources are shallowly embedded: Python dicts become insertion-ordered
association lists with overwrite-in-place update, Python strings become Lean
`String`s with `str.strip` modelled character-by-character, and fallible code
returns `Except`/`Option`.  External library calls (the `unstructured`
partitioning and chunking engine, `fnmatch`, FastAPI plumbing) enter the
definitions as explicit parameters or as clearly marked models.
-/

set_option maxHeartbeats 1000000

namespace UDL

/-! ## Python `dict` model

An insertion-ordered association list.  `dset` overwrites an existing key in
place (keeping its position) and otherwise appends, exactly as CPython dicts
behave; `dget` is `dict.get`, `dupdate` is `dict.update`. -/

abbrev Dict (α : Type) := List (String × α)

def dkeys {α : Type} (m : Dict α) : List String := m.map Prod.fst

def dget {α : Type} (m : Dict α) (k : String) : Option α :=
  (m.find? (fun p => p.1 = k)).map Prod.snd

def dhas {α : Type} (m : Dict α) (k : String) : Bool :=
  (dkeys m).contains k

def dset {α : Type} (m : Dict α) (k : String) (v : α) : Dict α :=
  if dhas m k then m.map (fun p => if p.1 = k then (k, v) else p)
  else m ++ [(k, v)]

def dupdate {α : Type} (m other : Dict α) : Dict α :=
  other.foldl (fun acc p => dset acc p.1 p.2) m

theorem dget_nil {α : Type} (k : String) : dget ([] : Dict α) k = none := rfl

theorem dget_cons {α : Type} (p : String × α) (m : Dict α) (k : String) :
    dget (p :: m) k = if p.1 = k then some p.2 else dget m k := by
  simp only [dget, List.find?]
  by_cases h : p.1 = k <;> simp [h]

theorem dget_append {α : Type} (m₁ m₂ : Dict α) (k : String) :
    dget (m₁ ++ m₂) k = (dget m₁ k).or (dget m₂ k) := by
  induction m₁ with
  | nil => simp [dget_nil]
  | cons p t ih =>
      simp only [List.cons_append, dget_cons, ih]
      by_cases h : p.1 = k <;> simp [h]

theorem dhas_cons {α : Type} (p : String × α) (m : Dict α) (k : String) :
    dhas (p :: m) k = ((p.1 = k : Bool) || dhas m k) := by
  show (dkeys (p :: m)).contains k = _
  rw [show dkeys (p :: m) = p.1 :: dkeys m from rfl, List.contains_cons]
  by_cases h : p.1 = k
  · subst h
    simp [dhas]
  · have h' : ¬ k = p.1 := fun hh => h hh.symm
    simp [h, h', dhas]

theorem dget_eq_none_of_not_dhas {α : Type} (m : Dict α) (k : String)
    (h : dhas m k = false) : dget m k = none := by
  induction m with
  | nil => rfl
  | cons p t ih =>
      rw [dhas_cons] at h
      rcases Bool.or_eq_false_iff.mp h with ⟨h1, h2⟩
      rw [dget_cons, if_neg (by simpa using h1)]
      exact ih h2

theorem dget_map_overwrite {α : Type} (m : Dict α) (k' k : String) (v : α) :
    dget (m.map (fun p => if p.1 = k' then (k', v) else p)) k
      = if k' = k then (if dhas m k' then some v else none) else dget m k := by
  induction m with
  | nil =>
      simp only [List.map_nil, dget_nil]
      by_cases hk : k' = k <;> simp [hk, dhas, dkeys]
  | cons p t ih =>
      rw [List.map_cons]
      by_cases hp : p.1 = k'
      · rw [if_pos hp]
        by_cases hk : k' = k
        · subst hk
          simp [dget_cons, dhas_cons, hp]
        · have hpk : ¬ p.1 = k := by rw [hp]; exact hk
          simp [dget_cons, dhas_cons, hp, hk, hpk, ih]
      · rw [if_neg hp]
        by_cases hk : k' = k
        · subst hk
          simp [dget_cons, dhas_cons, hp, ih]
        · by_cases hpk : p.1 = k
          · simp [dget_cons, hk, hpk]
          · simp [dget_cons, hk, hpk, ih]

theorem dget_dset {α : Type} (m : Dict α) (k' k : String) (v : α) :
    dget (dset m k' v) k = if k' = k then some v else dget m k := by
  unfold dset
  by_cases hmem : dhas m k'
  · rw [if_pos hmem, dget_map_overwrite, if_pos hmem]
  · rw [if_neg hmem, dget_append]
    by_cases hk : k' = k
    · subst hk
      rw [dget_eq_none_of_not_dhas m k' (by simpa using hmem)]
      simp [dget_cons, Option.orElse]
    · rw [if_neg hk, dget_cons, if_neg hk, dget_nil]
      cases dget m k <;> simp

theorem not_dhas_of_not_mem {α : Type} (m : Dict α) (k : String)
    (h : k ∉ dkeys m) : dhas m k = false := by
  induction m with
  | nil => rfl
  | cons p t ih =>
      rw [dhas_cons]
      have h1 : ¬ p.1 = k := fun he => h (by rw [← he]; exact List.mem_cons_self _ _)
      have h2 : k ∉ dkeys t := fun hm => h (List.mem_cons_of_mem _ hm)
      simp [h1, ih h2]

/-- `dict.update` looks keys up in the updating dict first (later writes win),
falling back to the base dict, provided the updating dict has no duplicate keys
(true of every Python dict). -/
theorem dget_dupdate {α : Type} (m o : Dict α) (k : String)
    (ho : (dkeys o).Nodup) :
    dget (dupdate m o) k = (dget o k).or (dget m k) := by
  induction o generalizing m with
  | nil => simp [dupdate, dget_nil]
  | cons p t ih =>
      have hnd : (dkeys t).Nodup := (List.nodup_cons.mp ho).2
      have hni : p.1 ∉ dkeys t := (List.nodup_cons.mp ho).1
      show dget (dupdate (dset m p.1 p.2) t) k = _
      rw [ih _ hnd, dget_dset, dget_cons]
      by_cases hp : p.1 = k
      · subst hp
        rw [dget_eq_none_of_not_dhas t p.1 (not_dhas_of_not_mem t p.1 hni)]
        simp
      · simp [hp]

/-- Folding `dict.update` over a list of dicts: a key's value comes from the
last dict that binds it, then from the accumulator. -/
theorem dget_foldl_dupdate {α : Type} (metas : List (Dict α)) (acc : Dict α)
    (k : String) (h : ∀ o ∈ metas, (dkeys o).Nodup) :
    dget (metas.foldl dupdate acc) k
      = (metas.reverse.findSome? (fun o => dget o k)).or (dget acc k) := by
  induction metas generalizing acc with
  | nil => simp
  | cons o t ih =>
      rw [List.foldl_cons, ih (dupdate acc o) (fun x hx => h x (List.mem_cons_of_mem _ hx)),
        dget_dupdate acc o k (h o (List.mem_cons_self _ _)), List.reverse_cons,
        List.findSome?_append, Option.or_assoc]
      congr 1
      rw [List.findSome?_cons, List.findSome?_nil]
      cases dget o k <;> simp

/-! ## Python `str.strip()` model

`str.strip()` with no argument removes leading and trailing whitespace.  It is
modelled character-by-character on the string's underlying list. -/

def pySpace (c : Char) : Bool :=
  c = ' ' || c = '\t' || c = '\n' || c = '\r' || c = '\x0b' || c = '\x0c'

def lstripL : List Char → List Char
  | [] => []
  | c :: t => if pySpace c then lstripL t else c :: t

def rstripL (l : List Char) : List Char := (lstripL l.reverse).reverse

def stripL (l : List Char) : List Char := rstripL (lstripL l)

/-- Python `s.strip()`. -/
def pyStrip (s : String) : String := ⟨stripL s.data⟩

/-- Python `sep.join(parts)`. -/
def pyJoin (sep : String) : List String → String
  | [] => ""
  | [x] => x
  | x :: xs => x ++ sep ++ pyJoin sep xs

theorem lstripL_length_le (l : List Char) : (lstripL l).length ≤ l.length := by
  induction l with
  | nil => simp [lstripL]
  | cons c t ih =>
      rw [lstripL]
      by_cases h : pySpace c
      · rw [if_pos h]
        exact le_trans ih (Nat.le_succ _)
      · rw [if_neg h]

theorem lstripL_suffix (l : List Char) : lstripL l <:+ l := by
  induction l with
  | nil => simp [lstripL]
  | cons c t ih =>
      rw [lstripL]
      by_cases h : pySpace c
      · rw [if_pos h]
        exact ih.trans (List.suffix_cons c t)
      · rw [if_neg h]

theorem lstripL_eq_self_of_length (l : List Char)
    (h : (lstripL l).length = l.length) : lstripL l = l :=
  (lstripL_suffix l).sublist.eq_of_length h

theorem rstripL_length_le (l : List Char) : (rstripL l).length ≤ l.length := by
  rw [rstripL, List.length_reverse]
  exact le_trans (lstripL_length_le _) (by rw [List.length_reverse])

theorem head_not_space_of_lstripL_eq (c : Char) (t : List Char)
    (h : lstripL (c :: t) = c :: t) : pySpace c = false := by
  by_contra hc
  rw [lstripL, if_pos (by revert hc; cases pySpace c <;> simp)] at h
  have := lstripL_length_le t
  rw [h] at this
  simp at this

theorem lstripL_cons_of_not_space (c : Char) (t : List Char)
    (h : pySpace c = false) : lstripL (c :: t) = c :: t := by
  rw [lstripL, if_neg (by simp [h])]

theorem lstripL_append (a b : List Char) :
    lstripL (a ++ b) = if lstripL a = [] then lstripL b else lstripL a ++ b := by
  induction a with
  | nil => simp [lstripL]
  | cons c t ih =>
      by_cases h : pySpace c
      · rw [List.cons_append, lstripL, if_pos h, ih, lstripL, if_pos h]
      · have h' : pySpace c = false := by simpa using h
        rw [List.cons_append, lstripL_cons_of_not_space c _ h',
          lstripL_cons_of_not_space c t h']
        simp

/-- If `p` is already stripped and non-empty, both its ends are fixed by
stripping: `lstripL p = p` and `lstripL p.reverse = p.reverse`. -/
theorem stripL_eq_self_parts (p : List Char) (h : stripL p = p) :
    lstripL p = p ∧ lstripL p.reverse = p.reverse := by
  have h1 : lstripL p = p := by
    apply lstripL_eq_self_of_length
    have hle1 : (stripL p).length ≤ (lstripL p).length := rstripL_length_le _
    have hle2 : (lstripL p).length ≤ p.length := lstripL_length_le p
    rw [h] at hle1
    omega
  have h2 : rstripL p = p := by
    have := h
    rw [stripL, h1] at this
    exact this
  refine ⟨h1, ?_⟩
  rw [rstripL] at h2
  have := congrArg List.reverse h2
  rwa [List.reverse_reverse] at this

/-- Stripping an extension on the right of an already-stripped non-empty
string never shortens it below the original length. -/
theorem stripL_append_length_ge (p r : List Char)
    (hp : stripL p = p) (hne : p ≠ []) :
    p.length ≤ (stripL (p ++ r)).length := by
  obtain ⟨h1, h2⟩ := stripL_eq_self_parts p hp
  obtain ⟨c, t, rfl⟩ := List.exists_cons_of_ne_nil hne
  have hc : pySpace c = false := head_not_space_of_lstripL_eq c t h1
  unfold stripL rstripL
  rw [List.cons_append, lstripL_cons_of_not_space c _ hc,
    List.reverse_cons, List.reverse_append, List.append_assoc,
    ← List.reverse_cons, lstripL_append]
  by_cases hz : lstripL r.reverse = []
  · rw [if_pos hz, h2]
    simp
  · rw [if_neg hz]
    simp

theorem lstripL_idem (l : List Char) : lstripL (lstripL l) = lstripL l := by
  induction l with
  | nil => simp [lstripL]
  | cons c t ih =>
      by_cases h : pySpace c
      · rw [lstripL, if_pos h, ih]
      · have h' : pySpace c = false := by simpa using h
        rw [lstripL_cons_of_not_space c t h', lstripL_cons_of_not_space c t h']

theorem lstripL_rstripL_of_lstripL (m : List Char) (h : lstripL m = m) :
    lstripL (rstripL m) = rstripL m := by
  rcases hz : rstripL m with _ | ⟨c, t⟩
  · simp [lstripL]
  · -- `rstripL m` is a prefix of `m`, so their heads agree
    have hpre : rstripL m <+: m := by
      have hs : lstripL m.reverse <:+ m.reverse := lstripL_suffix _
      have := List.reverse_prefix.mpr hs
      rw [List.reverse_reverse] at this
      exact this
    rw [hz] at hpre
    obtain ⟨rest, hrest⟩ := hpre
    have hm : m = c :: (t ++ rest) := by rw [← hrest]; simp
    have hcns : pySpace c = false := by
      apply head_not_space_of_lstripL_eq c (t ++ rest)
      rw [← hm]
      exact h
    exact lstripL_cons_of_not_space c t hcns

theorem rstripL_idem (m : List Char) : rstripL (rstripL m) = rstripL m := by
  unfold rstripL
  rw [List.reverse_reverse, lstripL_idem]

theorem stripL_idem (l : List Char) : stripL (stripL l) = stripL l := by
  unfold stripL
  rw [lstripL_rstripL_of_lstripL (lstripL l) (lstripL_idem l), rstripL_idem]

theorem pyStrip_idem (s : String) : pyStrip (pyStrip s) = pyStrip s := by
  simp [pyStrip, stripL_idem]

/-! ## Metadata values

Python metadata dictionaries hold strings, integers, booleans and (for the
computed `element_types` entry) lists of strings. -/

inductive MVal : Type where
  | s (v : String)
  | i (v : Int)
  | b (v : Bool)
  | strList (v : List String)
  deriving DecidableEq, Repr

/-- Python `str(value)` on a metadata value, as used in f-strings. -/
def MVal.text : MVal → String
  | .s v => v
  | .i v => toString v
  | .b true => "True"
  | .b false => "False"
  | .strList _ => ""

/-- Python truthiness of a metadata value. -/
def MVal.truthy : MVal → Bool
  | .s v => v ≠ ""
  | .i v => v ≠ 0
  | .b v => v
  | .strList v => v ≠ []

abbrev Meta := Dict MVal

/-! ## `universal_loader/document.py` — `Document` and `DocumentCollection` -/

/-- `Document(page_content, metadata)` from `universal_loader/document.py`. -/
structure Doc : Type where
  page_content : String
  metadata : Meta
  deriving DecidableEq, Repr

/-- `Document.get_metadata(key)` (default `None`). -/
def Doc.get_metadata (d : Doc) (key : String) : Option MVal :=
  dget d.metadata key

/-- `DocumentCollection` is an ordered list of documents. -/
structure DocumentCollection : Type where
  documents : List Doc
  deriving DecidableEq, Repr

/-- `DocumentCollection.filter_by_metadata(key, value)`: keeps documents whose
`get_metadata(key)` compares equal to `value`.  Passing `none` models the
Python caller handing in `None`. -/
def filter_by_metadata (c : DocumentCollection) (key : String)
    (value : Option MVal) : DocumentCollection :=
  ⟨c.documents.filter (fun d => d.get_metadata key = value)⟩

/-- `DocumentCollection.filter_by_content_length(min_length, max_length)`
with inclusive bounds (`min_length <= len <= max_length`). -/
def filter_by_content_length (c : DocumentCollection)
    (min_length max_length : Nat) : DocumentCollection :=
  ⟨c.documents.filter
    (fun d => min_length ≤ d.page_content.length
      && d.page_content.length ≤ max_length)⟩

/-- `DocumentCollection.merge_all(separator)` from
`universal_loader/document.py`. -/
def merge_all (c : DocumentCollection) (separator : String) : Doc :=
  if c.documents = [] then ⟨"", []⟩
  else
    let combined_content :=
      pyJoin separator (c.documents.map Doc.page_content)
    let combined_metadata :=
      c.documents.foldl (fun acc d => dupdate acc d.metadata) []
    let combined_metadata :=
      dset combined_metadata "document_count" (.i c.documents.length)
    let combined_metadata :=
      dset combined_metadata "merged_from_collection" (.b true)
    ⟨combined_content, combined_metadata⟩

/-- The "later documents win" union of metadata maps, written from the spec's
words to compare against the implementation. -/
def lastWriteWinsGet (metas : List Meta) (k : String) : Option MVal :=
  metas.reverse.findSome? (fun m => dget m k)

/-! ## `universal_loader/loader.py` — Conversion Core

Partitioning and chunking are performed by the external `unstructured`
library, so partitioned elements arrive as input and the chunker is an
explicit function parameter.  An element records `str(element)`, its optional
`category`, its metadata dict (empty when absent or falsy) and its optional
`id`. -/

structure Element : Type where
  text : String
  category : Option String
  metadata : Meta
  elemId : Option String
  deriving DecidableEq, Repr

/-- Modelled from the spec: `universal_loader/config.py` is not in the source
tree.  Spec §3 defines `LoaderConfig` with `output_format` (default
`documents`), `include_metadata` (default true), `chunking_strategy`
(optional, default absent), `max_chunk_size` (default 1000), `chunk_overlap`
(default 100), `min_text_length` (default 10) and `remove_headers_footers`
(default true); `ocr_languages`, `extract_images` and
`custom_partition_kwargs` are forwarded verbatim to the external partitioner
and are not needed here. -/
inductive OutputFormatE : Type where
  | json | text | elements | documents
  deriving DecidableEq, Repr

/-- Modelled from the spec: chunking-strategy enum of `LoaderConfig`
(`basic` | `by_title` | `by_page` | `by_similarity`). -/
inductive ChunkingStrategyE : Type where
  | basic | by_title | by_page | by_similarity
  deriving DecidableEq, Repr

/-- Modelled from the spec: the `LoaderConfig` record (see `OutputFormatE`). -/
structure LoaderConfig : Type where
  output_format : OutputFormatE := .documents
  include_metadata : Bool := true
  chunking_strategy : Option ChunkingStrategyE := none
  max_chunk_size : Int := 1000
  chunk_overlap : Int := 100
  min_text_length : Int := 10
  remove_headers_footers : Bool := true
  deriving DecidableEq, Repr

/-- `UniversalDataLoader._remove_headers_footers`. -/
def removeHeadersFooters (elements : List Element) : List Element :=
  elements.filter (fun e =>
    match e.category with
    | some c => !(c = "Header" || c = "Footer")
    | none => true)

/-- `UniversalDataLoader._filter_by_length`: keeps elements whose stripped
text has at least `min_text_length` characters. -/
def filterByLength (min_text_length : Int) (elements : List Element) :
    List Element :=
  elements.filter
    (fun e => min_text_length ≤ ((pyStrip e.text).length : Int))

/-- The group key computed in `_group_elements_by_source`: page number by
default, URL or filename when present in the element metadata. -/
def groupKey (e : Element) : String :=
  if e.metadata = [] then "page_1"
  else
    match dget e.metadata "url" with
    | some v => "url_" ++ v.text
    | none =>
      match dget e.metadata "filename" with
      | some v => "file_" ++ v.text
      | none =>
        let page := (dget e.metadata "page_number").getD
          ((dget e.metadata "page").getD (.i 1))
        "page_" ++ page.text

/-- `_group_elements_by_source`: an insertion-ordered dict from group key to
the elements carrying it, in input order. -/
def groupElements (elements : List Element) : List (String × List Element) :=
  elements.foldl (fun groups e =>
    let k := groupKey e
    if (groups.map Prod.fst).contains k then
      groups.map (fun p => if p.1 = k then (p.1, p.2 ++ [e]) else p)
    else groups ++ [(k, [e])]) []

/-- Loop state of the per-group accumulation in `_create_combined_documents`:
collected stripped texts, the first non-empty contributing metadata, and the
element categories seen (the Python `set` is modelled as an insertion-ordered
deduplicated list; no verified property depends on its order). -/
structure CombineAcc : Type where
  pieces : List String
  meta : Meta
  types : List String
  deriving DecidableEq, Repr

/-- One iteration of the element loop in `_create_combined_documents`. -/
def combineStep (cfg : LoaderConfig) (acc : CombineAcc) (e : Element) :
    CombineAcc :=
  let text := pyStrip e.text
  if text ≠ "" && cfg.min_text_length ≤ (text.length : Int) then
    { pieces := acc.pieces ++ [text]
      meta :=
        if acc.meta = [] && cfg.include_metadata then dupdate acc.meta e.metadata
        else acc.meta
      types :=
        match e.category with
        | some c => if acc.types.contains c then acc.types else acc.types ++ [c]
        | none => acc.types }
  else acc

/-- The summary-metadata augmentation at the end of the group loop in
`_create_combined_documents` (`element_types`, `combined_elements_count`,
and `element_type = "Combined"` when no truthy `element_type` is present). -/
def combineGroupMeta (cfg : LoaderConfig) (acc : CombineAcc) : Meta :=
  if cfg.include_metadata then
    if ((dget (dset (dset acc.meta "element_types" (.strList acc.types))
          "combined_elements_count" (.i acc.pieces.length))
          "element_type").map MVal.truthy).getD false then
      dset (dset acc.meta "element_types" (.strList acc.types))
        "combined_elements_count" (.i acc.pieces.length)
    else
      dset (dset (dset acc.meta "element_types" (.strList acc.types))
        "combined_elements_count" (.i acc.pieces.length))
        "element_type" (.s "Combined")
  else acc.meta

/-- The per-group document construction of `_create_combined_documents`
(`none` when the group contributed no qualifying text). -/
def combineGroup (cfg : LoaderConfig) (ges : List Element) : Option Doc :=
  if (ges.foldl (combineStep cfg) ⟨[], [], []⟩).pieces = [] then none
  else
    some ⟨pyJoin "\n\n" (ges.foldl (combineStep cfg) ⟨[], [], []⟩).pieces,
      combineGroupMeta cfg (ges.foldl (combineStep cfg) ⟨[], [], []⟩)⟩

/-- `UniversalDataLoader._create_combined_documents`. -/
def createCombinedDocuments (cfg : LoaderConfig) (elements : List Element) :
    DocumentCollection :=
  ⟨(groupElements elements).filterMap (fun p => combineGroup cfg p.2)⟩

/-- The metadata attached to one chunked document in
`_create_chunked_documents`. -/
def chunkedDocMeta (cfg : LoaderConfig) (e : Element) : Meta :=
  if cfg.include_metadata then
    let m : Meta := []
    let m := match e.category with
      | some c => dset m "element_type" (.s c)
      | none => m
    let m := dupdate m e.metadata
    match e.elemId with
    | some i => dset m "element_id" (.s i)
    | none => m
  else []

/-- `UniversalDataLoader._create_chunked_documents`: one document per element,
skipping elements whose *raw* text is shorter than `min_text_length`. -/
def createChunkedDocuments (cfg : LoaderConfig) (elements : List Element) :
    DocumentCollection :=
  ⟨elements.filterMap (fun e =>
    if (e.text.length : Int) < cfg.min_text_length then none
    else some ⟨e.text, chunkedDocMeta cfg e⟩)⟩

structure TextItem : Type where
  text : String
  type : String
  deriving DecidableEq, Repr

/-- The four output shapes of `_format_output`.  The `json` shape hands the
elements to the external `convert_to_dict`, so it carries the elements that
conversion receives. -/
inductive LoadOutput : Type where
  | elements (es : List Element)
  | documents (c : DocumentCollection)
  | textItems (ts : List TextItem)
  | jsonItems (es : List Element)
  deriving DecidableEq, Repr

/-- `UniversalDataLoader._format_output`. -/
def formatOutput (cfg : LoaderConfig) (elements : List Element) : LoadOutput :=
  match cfg.output_format with
  | .elements => .elements elements
  | .documents =>
      if cfg.chunking_strategy.isSome then
        .documents (createChunkedDocuments cfg elements)
      else
        .documents (createCombinedDocuments cfg elements)
  | .text =>
      .textItems (elements.map (fun e => ⟨e.text, e.category.getD "Unknown"⟩))
  | .json => .jsonItems elements

/-- The element-processing pipeline shared by `load_file` and `load_url`
after partitioning: header/footer removal, length filter, chunking (the
external chunker is a parameter), output formatting. -/
def processElements (cfg : LoaderConfig)
    (chunker : List Element → List Element) (elements : List Element) :
    LoadOutput :=
  let e1 := if cfg.remove_headers_footers then removeHeadersFooters elements
            else elements
  let e2 := if 0 < cfg.min_text_length then filterByLength cfg.min_text_length e1
            else e1
  let e3 := if cfg.chunking_strategy.isSome then chunker e2 else e2
  formatOutput cfg e3

/-- `load_url` applies the pipeline directly to the partitioned elements. -/
def loadUrl (cfg : LoaderConfig) (chunker : List Element → List Element)
    (partitioned : List Element) : LoadOutput :=
  processElements cfg chunker partitioned

def SUPPORTED_EXTENSIONS : List String :=
  [".pdf", ".docx", ".doc", ".html", ".htm", ".txt", ".md",
   ".csv", ".xlsx", ".xls", ".pptx", ".ppt", ".eml", ".msg",
   ".xml", ".json", ".rtf"]

/-- `load_file`: existence and extension checks, then the pipeline.
`fileExists` and the partitioned elements stand for the filesystem and the
external partitioner. -/
def loadFile (cfg : LoaderConfig) (chunker : List Element → List Element)
    (fileExists : Bool) (extLower : String) (partitioned : List Element) :
    Except String LoadOutput :=
  if !fileExists then .error "File not found"
  else if !(SUPPORTED_EXTENSIONS.contains extLower) then
    .error "Unsupported file type"
  else .ok (processElements cfg chunker partitioned)

/-- The text of every element/document appearing in a formatted output. -/
def LoadOutput.texts : LoadOutput → List String
  | .elements es => es.map Element.text
  | .documents c => c.documents.map Doc.page_content
  | .textItems ts => ts.map TextItem.text
  | .jsonItems es => es.map Element.text

/-! ## `app/api/models/requests.py` — chunking-field validation

`ProcessFileRequest` and `ProcessUrlRequest` carry identical
`enable_chunking`/`chunking_strategy`/`max_chunk_size` fields and identical
pydantic-v1 `@validator`s.  Pydantic v1 semantics: a field validator runs
only when the field was supplied in the payload; a missing field silently
takes its declared default, and `values` holds the already-validated earlier
fields. -/

/-- A request field: absent from the payload, or supplied with a value
(`provided none` models an explicit JSON `null`). -/
inductive FieldInput (α : Type) : Type where
  | missing
  | provided (v : α)
  deriving DecidableEq, Repr

def pyTruthyOptBool : Option Bool → Bool
  | none => false
  | some b => b

def pyTruthyOptStr : Option String → Bool
  | none => false
  | some s => s ≠ ""

def pyTruthyOptInt : Option Int → Bool
  | none => false
  | some n => n ≠ 0

/-- The `validate_chunking_strategy` validator body. -/
def runStrategyValidator (enable_chunking : Option Bool)
    (v : Option String) : Except String (Option String) :=
  if pyTruthyOptBool enable_chunking && !(pyTruthyOptStr v) then
    .error "chunking_strategy is required when enable_chunking=True"
  else .ok v

/-- The `validate_max_chunk_size` validator body. -/
def runSizeValidator (enable_chunking : Option Bool)
    (v : Option Int) : Except String (Option Int) :=
  if pyTruthyOptBool enable_chunking && !(pyTruthyOptInt v) then
    .error "max_chunk_size is required when enable_chunking=True"
  else .ok v

/-- The validated chunking-related fields of a process request. -/
structure ChunkFields : Type where
  enable_chunking : Option Bool
  chunking_strategy : Option String
  max_chunk_size : Option Int
  deriving DecidableEq, Repr

/-- Request-model validation of the chunking fields, shared verbatim by
`ProcessFileRequest` and `ProcessUrlRequest`: defaults are applied for
missing fields, and each validator runs only on supplied fields. -/
def validateChunkFields (enable : FieldInput (Option Bool))
    (strategy : FieldInput (Option String))
    (size : FieldInput (Option Int)) : Except String ChunkFields := do
  let e : Option Bool :=
    match enable with
    | .missing => some false
    | .provided v => v
  let s : Option String ←
    match strategy with
    | .missing => pure none
    | .provided v => runStrategyValidator e v
  let z : Option Int ←
    match size with
    | .missing => pure none
    | .provided v => runSizeValidator e v
  pure ⟨e, s, z⟩

/-! ## `app/core/security.py` — `get_api_key` -/

inductive ApiKeyOutcome : Type where
  | allowed (key : String)
  | rejected (statusCode : Nat) (detail : String)
  deriving DecidableEq, Repr

def pyTruthyStrOpt (v : Option String) : Bool :=
  match v with
  | none => false
  | some s => s ≠ ""

/-- `get_api_key`: `secretKey` is `os.getenv("API_SECRET_KEY")` (absent env
var → `none`), `headerKey` the `x-api-key` header (`auto_error=False` →
`none` when the header is absent). -/
def get_api_key (secretKey headerKey : Option String) : ApiKeyOutcome :=
  if !(pyTruthyStrOpt secretKey) then
    .rejected 500 "API secret key not configured on the server."
  else if !(pyTruthyStrOpt headerKey) then
    .rejected 403 "API key is missing."
  else if headerKey ≠ secretKey then
    .rejected 401 "Invalid API key."
  else .allowed (headerKey.getD "")

/-! ## `app/services/job_service.py` — job registry -/

/-- A job record is a Python dict. -/
abbrev Job := Meta

/-- The in-memory `jobs_storage` dict keyed by job id. -/
abbrev JobsStorage := Dict Job

/-- The successive in-place mutations `update_job_status` applies to the
found record: assign `status`, update with `kwargs`, then stamp
`completed_at` when the new status is terminal. -/
def applyJobUpdate (status : String) (kwargs : Meta) (now : String)
    (j : Job) : Job :=
  if status = "completed" || status = "failed" then
    dset (dupdate (dset j "status" (.s status)) kwargs) "completed_at" (.s now)
  else dupdate (dset j "status" (.s status)) kwargs

/-- `update_job_status(job_id, status, **kwargs)` with `now` standing for
`datetime.now().isoformat()`. -/
def update_job_status (storage : JobsStorage) (job_id status : String)
    (kwargs : Meta) (now : String) : JobsStorage :=
  if dhas storage job_id then
    storage.map (fun p =>
      if p.1 = job_id then (p.1, applyJobUpdate status kwargs now p.2) else p)
  else storage

/-! ## `universal_loader/batch_processor.py` — sequential batch run -/

/-- The processor's mutable state: `self.results` keyed by source path and
`self.errors` keyed by source path. -/
structure BatchState (ρ : Type) : Type where
  results : Dict ρ
  errors : Dict String
  deriving DecidableEq, Repr

/-- `_process_sequential`: one pass over the sources; `proc` is
`_process_single_source` (whose failure raises).  A `.error` result models
the re-raise aborting the run when `continue_on_error` is false, carrying
the state at that point. -/
def processSeqAux {ρ : Type} (proc : String → Except String ρ)
    (continue_on_error : Bool) :
    List String → BatchState ρ → Except (BatchState ρ) (BatchState ρ)
  | [], st => .ok st
  | s :: rest, st =>
      match proc s with
      | .ok r =>
          processSeqAux proc continue_on_error rest
            ⟨dset st.results s r, st.errors⟩
      | .error e =>
          let st' : BatchState ρ := ⟨st.results, dset st.errors s e⟩
          if continue_on_error then processSeqAux proc continue_on_error rest st'
          else .error st'

def processSequential {ρ : Type} (proc : String → Except String ρ)
    (sources : List String) (continue_on_error : Bool) :
    Except (BatchState ρ) (BatchState ρ) :=
  processSeqAux proc continue_on_error sources ⟨[], []⟩

/-- The source-count portion of `_generate_summary`. -/
structure BatchSummary : Type where
  total_sources : Nat
  successful_sources : Nat
  failed_sources : Nat
  errors : Dict String
  deriving DecidableEq, Repr

def generateSummary {ρ : Type} (sources : List String) (st : BatchState ρ) :
    BatchSummary :=
  ⟨sources.length, st.results.length, st.errors.length, st.errors⟩

/-! ## `fnmatch` and `_process_directory_with_patterns` -/

/-- Modelled from Python's stdlib `fnmatch` (an external dependency of
`batch_processor.py`): glob matching with `*` (any run) and `?` (any single
character); character classes are not modelled — no pattern in the claims
uses them.  Fuel makes the recursion structural; every step shortens
pattern + string, so `|pattern| + |string| + 1` fuel always suffices. -/
def fnmatchFuel : Nat → List Char → List Char → Bool
  | 0, _, _ => false
  | fuel + 1, pat, str =>
    match pat, str with
    | [], [] => true
    | '*' :: p, [] => fnmatchFuel fuel p []
    | '*' :: p, c :: s =>
        fnmatchFuel fuel p (c :: s) || fnmatchFuel fuel ('*' :: p) s
    | '?' :: p, _ :: s => fnmatchFuel fuel p s
    | a :: p, c :: s => (a = c) && fnmatchFuel fuel p s
    | _, _ => false

def fnmatch (name pattern : String) : Bool :=
  fnmatchFuel (pattern.length + name.length + 1) pattern.data name.data

def pyTruthyList (v : Option (List String)) : Bool :=
  match v with
  | none => false
  | some l => l ≠ []

/-- The per-file include/exclude test of the pattern loop in
`_process_directory_with_patterns`. -/
def matchesBatchPatterns (include_patterns exclude_patterns : Option (List String))
    (file_name : String) : Bool :=
  (if pyTruthyList include_patterns then
      (include_patterns.getD []).any (fun pat => fnmatch file_name pat)
    else true)
  && (if pyTruthyList exclude_patterns then
      !((exclude_patterns.getD []).any (fun pat => fnmatch file_name pat))
    else true)

/-- Python `Path.suffix`: text from the last dot, empty for names with no
dot, a leading dot, or a trailing dot. -/
def fileSuffix (name : String) : String :=
  let l := name.data
  match l.reverse.findIdx? (fun c => c = '.') with
  | none => ""
  | some revIdx =>
      let i := l.length - 1 - revIdx
      if 0 < i && i < l.length - 1 then ⟨l.drop i⟩ else ""

/-- The file set visited by `load_directory`: files with a supported
(lower-cased) extension. -/
def loadDirectoryFiles (files : List String) : List String :=
  files.filter (fun f => SUPPORTED_EXTENSIONS.contains (fileSuffix f).toLower)

/-- `_process_directory_with_patterns`, at the level of which directory files
get load-attempted: with neither pattern list truthy it defers to
`load_directory`, otherwise it walks all files and applies the
include/exclude tests to each file name. -/
def processDirectoryWithPatterns (include_patterns exclude_patterns : Option (List String))
    (files : List String) : List String :=
  if !(pyTruthyList include_patterns) && !(pyTruthyList exclude_patterns) then
    loadDirectoryFiles files
  else
    files.filter (matchesBatchPatterns include_patterns exclude_patterns)

/-! ## `universal_loader/batch_config.py` — `InputSource.validate_path` -/

inductive InputTypeE : Type where
  | file | directory | url
  deriving DecidableEq, Repr

def startsWithHttp (v : String) : Bool :=
  v.startsWith "http://" || v.startsWith "https://"

/-- `InputSource.validate_path`. -/
def validate_path (ty : InputTypeE) (v : String) : Except String String :=
  match ty with
  | .file =>
      if v = "" || startsWithHttp v then
        .error "File input must be a valid file path"
      else .ok v
  | .url =>
      if !(startsWithHttp v) then
        .error "URL input must start with http:// or https://"
      else .ok v
  | .directory =>
      if startsWithHttp v then .error "Directory input cannot be a URL"
      else .ok v

/-! ## Claim theorems -/

/-- C10: `filter_by_metadata` and `filter_by_content_length` each return
exactly the documents satisfying the respective predicate (metadata value
equal to the given value; content length within the inclusive bounds), as a
sublist of the original list, i.e. in the original relative order.  Both
build a fresh collection; the source list itself is untouched (the embedding
is pure, as are the Python list comprehensions). -/
theorem C10_collection_filters (c : DocumentCollection) (key : String)
    (value : Option MVal) (minL maxL : Nat) :
    (∀ d, d ∈ (filter_by_metadata c key value).documents ↔
        d ∈ c.documents ∧ d.get_metadata key = value)
    ∧ List.Sublist (filter_by_metadata c key value).documents c.documents
    ∧ (∀ d, d ∈ (filter_by_content_length c minL maxL).documents ↔
        d ∈ c.documents ∧
          (minL ≤ d.page_content.length ∧ d.page_content.length ≤ maxL))
    ∧ List.Sublist (filter_by_content_length c minL maxL).documents
        c.documents := by
  refine ⟨?_, ?_, ?_, ?_⟩
  · intro d
    simp [filter_by_metadata, List.mem_filter]
  · exact List.filter_sublist _
  · intro d
    simp [filter_by_content_length, List.mem_filter]
  · exact List.filter_sublist _

/-- C7 (counterexample): the claim says an empty path is rejected for every
source type, but `validate_path` accepts the empty string for a
directory-typed source (the directory branch only rejects URL-looking
paths). -/
theorem C7_counterexample : validate_path .directory "" = .ok "" := rfl

/-- C7 (amended): `InputSource.validate_path` succeeds exactly when: for
`file`, the path is non-empty and has no `http(s)://` prefix; for `url`, the
path has an `http(s)://` prefix (so the empty path is rejected); for
`directory`, the path has no `http(s)://` prefix (so the empty path is
accepted). -/
theorem C7_validate_path_cases (ty : InputTypeE) (v : String) :
    (validate_path ty v).isOk = true ↔
      (match ty with
       | .file => v ≠ "" ∧ startsWithHttp v = false
       | .url => startsWithHttp v = true
       | .directory => startsWithHttp v = false) := by
  cases ty with
  | file =>
      by_cases hv : v = ""
      · subst hv
        simp [validate_path, Except.isOk, Except.toBool]
      · by_cases hh : startsWithHttp v <;>
          simp [validate_path, Except.isOk, Except.toBool, hv, hh]
  | url =>
      by_cases hh : startsWithHttp v <;>
        simp [validate_path, Except.isOk, Except.toBool, hh]
  | directory =>
      by_cases hh : startsWithHttp v <;>
        simp [validate_path, Except.isOk, Except.toBool, hh]

/-- C3 (counterexample): with a configured non-empty secret, a *present but
empty* `x-api-key` header is rejected 403 ("missing"), not 401
("unauthorized") as the claim requires for any present non-matching
header. -/
theorem C3_counterexample :
    (some "" : Option String) ≠ some "sec"
    ∧ get_api_key (some "sec") (some "")
        = .rejected 403 "API key is missing." := by
  exact ⟨by simp, rfl⟩

/-- C3 (amended): `get_api_key` rejects 500 when the secret is unset *or
empty* (both are Python-falsy, hence "not configured"); with a non-empty
secret it rejects a missing *or empty* header 403, rejects a present
non-empty non-matching header 401, and passes a matching header through
unchanged. -/
theorem C3_api_key_gate (secret header : Option String) :
    ((secret = none ∨ secret = some "") →
        get_api_key secret header
          = .rejected 500 "API secret key not configured on the server.")
    ∧ (∀ s : String, secret = some s → s ≠ "" →
        ((header = none ∨ header = some "") →
            get_api_key secret header
              = .rejected 403 "API key is missing.")
        ∧ (∀ h : String, header = some h → h ≠ "" → h ≠ s →
            get_api_key secret header = .rejected 401 "Invalid API key.")
        ∧ (header = some s → get_api_key secret header = .allowed s)) := by
  constructor
  · rintro (rfl | rfl) <;> simp [get_api_key, pyTruthyStrOpt]
  · rintro s rfl hs
    refine ⟨?_, ?_, ?_⟩
    · rintro (rfl | rfl) <;> simp [get_api_key, pyTruthyStrOpt, hs]
    · rintro h rfl hh hne
      simp [get_api_key, pyTruthyStrOpt, hs, hh, hne]
    · rintro rfl
      simp [get_api_key, pyTruthyStrOpt, hs]

/-- C3 (witness): the four concrete outcomes, one per branch of the amended
statement. -/
theorem C3_api_key_gate_witness :
    get_api_key none (some "k")
        = .rejected 500 "API secret key not configured on the server."
    ∧ get_api_key (some "sec") none = .rejected 403 "API key is missing."
    ∧ get_api_key (some "sec") (some "bad")
        = .rejected 401 "Invalid API key."
    ∧ get_api_key (some "sec") (some "sec") = .allowed "sec" := by
  refine ⟨(C3_api_key_gate none (some "k")).1 (Or.inl rfl), ?_, ?_, ?_⟩
  · exact (((C3_api_key_gate (some "sec") none).2 "sec" rfl (by decide)).1)
      (Or.inl rfl)
  · exact (((C3_api_key_gate (some "sec") (some "bad")).2 "sec" rfl
      (by decide)).2.1) "bad" rfl (by decide) (by decide)
  · exact (((C3_api_key_gate (some "sec") (some "sec")).2 "sec" rfl
      (by decide)).2.2) rfl

/-- C2: the claim is right and the code is a slip.  The pydantic-v1
validators lack `always=True`, so an *absent* `chunking_strategy` /
`max_chunk_size` never reaches its validator: a request with
`enable_chunking = true` and both fields omitted validates successfully,
while the inline comments ("Required if enable_chunking=True") and the spec
demand a validation error.  A supplied-but-falsy value (e.g.
`max_chunk_size = 0`) does reach the validator and is rejected. -/
theorem C2_chunking_validation_gap :
    validateChunkFields (.provided (some true)) .missing .missing
      = .ok ⟨some true, none, none⟩
    ∧ validateChunkFields (.provided (some true)) (.provided (some "by_title"))
        (.provided (some 0))
      = .error "max_chunk_size is required when enable_chunking=True" := by
  exact ⟨rfl, rfl⟩

/-- C9: `update_job_status` on a job id that is not in the registry returns
normally and leaves the whole registry unchanged — nothing is created and
nothing is modified. -/
theorem C9_update_missing_job_is_noop (storage : JobsStorage)
    (job_id status : String) (kwargs : Meta) (now : String)
    (habs : dhas storage job_id = false) :
    update_job_status storage job_id status kwargs now = storage := by
  unfold update_job_status
  rw [if_neg (by simp [habs])]

/-- C9 (witness): updating an unknown id in a one-job registry changes
nothing. -/
theorem C9_update_missing_job_is_noop_witness :
    dhas [("job_a", [("status", MVal.s "pending")])] "job_b" = false
    ∧ update_job_status [("job_a", [("status", MVal.s "pending")])]
        "job_b" "completed" [] "t1"
      = [("job_a", [("status", MVal.s "pending")])] :=
  ⟨by decide,
   C9_update_missing_job_is_noop [("job_a", [("status", MVal.s "pending")])]
     "job_b" "completed" [] "t1" (by decide)⟩

/-- Modifying the value stored at one key of a dict, in place. -/
theorem dget_map_modify {α : Type} (m : Dict α) (k0 k : String) (f : α → α) :
    dget (m.map (fun p => if p.1 = k0 then (p.1, f p.2) else p)) k
      = if k0 = k then (dget m k0).map f else dget m k := by
  induction m with
  | nil => by_cases hk : k0 = k <;> simp [dget_nil, hk]
  | cons p t ih =>
      rw [List.map_cons]
      by_cases hp : p.1 = k0
      · rw [if_pos hp]
        by_cases hk : k0 = k
        · subst hk
          simp [dget_cons, hp]
        · have hpk : ¬ p.1 = k := by rw [hp]; exact hk
          simp [dget_cons, hp, hk, hpk, ih]
      · rw [if_neg hp]
        by_cases hk : k0 = k
        · subst hk
          simp [dget_cons, hp, ih]
        · by_cases hpk : p.1 = k
          · simp [dget_cons, hk, hpk]
          · simp [dget_cons, hk, hpk, ih]

/-- C4 (counterexample): nothing in `update_job_status` enforces forward-only
transitions — a job already `completed` is moved straight back to `pending`
by a later call, refuting the monotonicity half of the claim. -/
theorem C4_counterexample :
    dget [("j", [("status", MVal.s "completed"),
                 ("completed_at", MVal.s "t0")])] "j"
      = some [("status", MVal.s "completed"), ("completed_at", MVal.s "t0")]
    ∧ (dget (update_job_status
        [("j", [("status", MVal.s "completed"),
                ("completed_at", MVal.s "t0")])] "j" "pending" [] "t1") "j").map
          (fun j => dget j "status")
      = some (some (MVal.s "pending")) := by
  exact ⟨rfl, rfl⟩

/-- C4 (amended): `update_job_status` on an existing job sets `status` to
exactly the requested value — with no monotonicity guard, so a terminal
status can be left again whenever a caller asks — and stamps `completed_at`
with the current time exactly when the new status is `completed` or
`failed`, leaving the previous `completed_at` untouched otherwise.  Other
jobs are never modified.  (`kwargs` is assumed not to smuggle in `status` or
`completed_at`, which the explicit assignments would otherwise race with.) -/
theorem C4_update_job_status_behavior (storage : JobsStorage)
    (job_id status now : String) (kwargs : Meta) (oldJob : Job)
    (hold : dget storage job_id = some oldJob)
    (hknd : (dkeys kwargs).Nodup)
    (hks : "status" ∉ dkeys kwargs)
    (hkc : "completed_at" ∉ dkeys kwargs) :
    (∃ newJob,
      dget (update_job_status storage job_id status kwargs now) job_id
          = some newJob
      ∧ dget newJob "status" = some (.s status)
      ∧ dget newJob "completed_at"
          = (if status = "completed" || status = "failed" then some (.s now)
             else dget oldJob "completed_at"))
    ∧ (∀ k, k ≠ job_id →
        dget (update_job_status storage job_id status kwargs now) k
          = dget storage k) := by
  have hin : dhas storage job_id = true := by
    by_contra hc
    rw [dget_eq_none_of_not_dhas storage job_id (by simpa using hc)] at hold
    exact Option.noConfusion hold
  have hmap :
      ∀ k, dget (update_job_status storage job_id status kwargs now) k
        = if job_id = k then
            (dget storage job_id).map (applyJobUpdate status kwargs now)
          else dget storage k := by
    intro k
    unfold update_job_status
    rw [if_pos hin]
    exact dget_map_modify storage job_id k _
  have hbaseS : dget (dupdate (dset oldJob "status" (.s status)) kwargs)
      "status" = some (.s status) := by
    rw [dget_dupdate _ _ _ hknd,
      dget_eq_none_of_not_dhas kwargs "status"
        (not_dhas_of_not_mem _ _ hks),
      dget_dset]
    simp
  have hbaseC : dget (dupdate (dset oldJob "status" (.s status)) kwargs)
      "completed_at" = dget oldJob "completed_at" := by
    rw [dget_dupdate _ _ _ hknd,
      dget_eq_none_of_not_dhas kwargs "completed_at"
        (not_dhas_of_not_mem _ _ hkc),
      dget_dset, if_neg (by decide)]
    simp
  refine ⟨⟨applyJobUpdate status kwargs now oldJob,
      by rw [hmap job_id, if_pos rfl, hold]; rfl, ?_, ?_⟩, ?_⟩
  · unfold applyJobUpdate
    by_cases ht : status = "completed" || status = "failed"
    · rw [if_pos ht, dget_dset, if_neg (by decide), hbaseS]
    · rw [if_neg ht, hbaseS]
  · unfold applyJobUpdate
    by_cases ht : status = "completed" || status = "failed"
    · rw [if_pos ht, if_pos ht, dget_dset, if_pos rfl]
    · rw [if_neg ht, if_neg ht, hbaseC]
  · intro k hk
    rw [hmap k, if_neg (fun he => hk he.symm)]

/-- C4 (witness): a `pending → completed` update on a concrete registry sets
the status and stamps `completed_at`, and leaves the sibling job alone. -/
theorem C4_update_job_status_behavior_witness :
    dget [("j", [("status", MVal.s "pending")]),
          ("k", [("status", MVal.s "pending")])] "j"
        = some [("status", MVal.s "pending")]
    ∧ (∃ newJob,
        dget (update_job_status
            [("j", [("status", MVal.s "pending")]),
             ("k", [("status", MVal.s "pending")])]
            "j" "completed" [("documents_count", MVal.i 5)] "t1") "j"
          = some newJob
        ∧ dget newJob "status" = some (.s "completed")
        ∧ dget newJob "completed_at"
            = (if ("completed" = "completed" || "completed" = "failed")
               then some (.s "t1")
               else dget [("status", MVal.s "pending")] "completed_at"))
    ∧ dget (update_job_status
          [("j", [("status", MVal.s "pending")]),
           ("k", [("status", MVal.s "pending")])]
          "j" "completed" [("documents_count", MVal.i 5)] "t1") "k"
        = dget [("j", [("status", MVal.s "pending")]),
                ("k", [("status", MVal.s "pending")])] "k" := by
  have h := C4_update_job_status_behavior
    [("j", [("status", MVal.s "pending")]),
     ("k", [("status", MVal.s "pending")])]
    "j" "completed" "t1" [("documents_count", MVal.i 5)]
    [("status", MVal.s "pending")] rfl (by decide) (by decide) (by decide)
  exact ⟨rfl, h.1, h.2 "k" (by decide)⟩

/-- C8 (counterexample): on an *empty* collection `merge_all` returns
`Document("", {})`, so neither `document_count` nor
`merged_from_collection` appears, contradicting the claim's "for every
DocumentCollection". -/
theorem C8_counterexample :
    dget (merge_all ⟨[]⟩ "\n\n").metadata "document_count" = none
    ∧ dget (merge_all ⟨[]⟩ "\n\n").metadata "merged_from_collection"
        = none := by
  exact ⟨rfl, rfl⟩

/-- C8 (amended): for every *non-empty* collection, `merge_all` joins the
page contents with the separator in collection order, carries
`document_count` (the number of documents) and `merged_from_collection =
true`, and on every other key agrees with the last-write-wins union of the
documents' metadata maps; the empty collection instead yields a document
with empty content and empty metadata. -/
theorem C8_merge_all_spec (c : DocumentCollection) (sep : String)
    (hne : c.documents ≠ [])
    (hnd : ∀ d ∈ c.documents, (dkeys d.metadata).Nodup) :
    (merge_all c sep).page_content
        = pyJoin sep (c.documents.map Doc.page_content)
    ∧ dget (merge_all c sep).metadata "document_count"
        = some (.i c.documents.length)
    ∧ dget (merge_all c sep).metadata "merged_from_collection"
        = some (.b true)
    ∧ ∀ k, k ≠ "document_count" → k ≠ "merged_from_collection" →
        dget (merge_all c sep).metadata k
          = lastWriteWinsGet (c.documents.map Doc.metadata) k := by
  have hmeta : (merge_all c sep).metadata
      = dset (dset (c.documents.foldl (fun acc d => dupdate acc d.metadata) [])
          "document_count" (.i c.documents.length))
          "merged_from_collection" (.b true) := by
    unfold merge_all
    rw [if_neg hne]
  have hcontent : (merge_all c sep).page_content
      = pyJoin sep (c.documents.map Doc.page_content) := by
    unfold merge_all
    rw [if_neg hne]
  refine ⟨hcontent, ?_, ?_, ?_⟩
  · rw [hmeta, dget_dset, if_neg (by decide), dget_dset, if_pos rfl]
  · rw [hmeta, dget_dset, if_pos rfl]
  · intro k hk1 hk2
    have hfold : c.documents.foldl (fun acc d => dupdate acc d.metadata) []
        = (c.documents.map Doc.metadata).foldl dupdate [] := by
      rw [List.foldl_map]
    rw [hmeta, dget_dset, if_neg (fun he => hk2 he.symm),
      dget_dset, if_neg (fun he => hk1 he.symm), hfold,
      dget_foldl_dupdate _ _ _ (by
        intro o ho
        obtain ⟨d, hd, rfl⟩ := List.mem_map.mp ho
        exact hnd d hd),
      dget_nil, Option.or_none]
    rfl

/-- C8 (witness): merging a concrete two-document collection. -/
theorem C8_merge_all_spec_witness :
    (merge_all ⟨[⟨"alpha", [("k", MVal.s "1")]⟩,
                 ⟨"beta", [("k", MVal.s "2"), ("j", MVal.i 7)]⟩]⟩
        "--").page_content
      = pyJoin "--" ["alpha", "beta"]
    ∧ dget (merge_all ⟨[⟨"alpha", [("k", MVal.s "1")]⟩,
                        ⟨"beta", [("k", MVal.s "2"), ("j", MVal.i 7)]⟩]⟩
        "--").metadata "document_count" = some (.i 2)
    ∧ dget (merge_all ⟨[⟨"alpha", [("k", MVal.s "1")]⟩,
                        ⟨"beta", [("k", MVal.s "2"), ("j", MVal.i 7)]⟩]⟩
        "--").metadata "merged_from_collection" = some (.b true)
    ∧ dget (merge_all ⟨[⟨"alpha", [("k", MVal.s "1")]⟩,
                        ⟨"beta", [("k", MVal.s "2"), ("j", MVal.i 7)]⟩]⟩
        "--").metadata "k"
      = lastWriteWinsGet [[("k", MVal.s "1")],
                          [("k", MVal.s "2"), ("j", MVal.i 7)]] "k" := by
  have h := C8_merge_all_spec
    ⟨[⟨"alpha", [("k", MVal.s "1")]⟩,
      ⟨"beta", [("k", MVal.s "2"), ("j", MVal.i 7)]⟩]⟩
    "--" (by decide) (by decide)
  exact ⟨h.1, h.2.1, h.2.2.1, h.2.2.2 "k" (by decide) (by decide)⟩

theorem isOk_ok {ε α : Type} (r : α) : (Except.ok r : Except ε α).isOk = true :=
  rfl

theorem isOk_error {ε α : Type} (e : ε) :
    (Except.error e : Except ε α).isOk = false := rfl

theorem dhas_eq_isSome {α : Type} (m : Dict α) (k : String) :
    dhas m k = (dget m k).isSome := by
  induction m with
  | nil => rfl
  | cons p t ih =>
      rw [dhas_cons, dget_cons]
      by_cases h : p.1 = k <;> simp [h, ih]

theorem dset_length_of_not_dhas {α : Type} (m : Dict α) (k : String) (v : α)
    (h : dhas m k = false) : (dset m k v).length = m.length + 1 := by
  unfold dset
  rw [if_neg (by simp [h])]
  simp

/-- Invariant run of `_process_sequential` with `continue_on_error = true`
over sources whose paths are fresh for the accumulated state. -/
theorem processSeqAux_spec {ρ : Type} (proc : String → Except String ρ)
    (sources : List String) (st0 : BatchState ρ)
    (hnd : sources.Nodup)
    (hfree : ∀ s ∈ sources,
      dhas st0.results s = false ∧ dhas st0.errors s = false) :
    ∃ st, processSeqAux proc true sources st0 = .ok st
      ∧ st.results.length
          = st0.results.length + sources.countP (fun s => (proc s).isOk)
      ∧ st.errors.length
          = st0.errors.length + sources.countP (fun s => !(proc s).isOk)
      ∧ (∀ k, k ∉ sources → dget st.errors k = dget st0.errors k)
      ∧ (∀ s ∈ sources, ∀ e, proc s = .error e →
          dget st.errors s = some e) := by
  induction sources generalizing st0 with
  | nil =>
      exact ⟨st0, rfl, by simp, by simp, fun k _ => rfl, by simp⟩
  | cons s0 rest ih =>
      obtain ⟨hs0, hrest⟩ := List.nodup_cons.mp hnd
      have hfree0 := hfree s0 (List.mem_cons_self _ _)
      cases hp : proc s0 with
      | ok r =>
          obtain ⟨st, hrun, hlen1, hlen2, hframe, herr⟩ :=
            ih ⟨dset st0.results s0 r, st0.errors⟩ hrest (by
              intro s hs
              have hne : ¬ s0 = s := fun he => hs0 (he ▸ hs)
              have hf := hfree s (List.mem_cons_of_mem _ hs)
              constructor
              · show dhas (dset st0.results s0 r) s = false
                rw [dhas_eq_isSome, dget_dset, if_neg hne, ← dhas_eq_isSome]
                exact hf.1
              · exact hf.2)
          refine ⟨st, ?_, ?_, ?_, ?_, ?_⟩
          · show (match proc s0 with
              | .ok r => processSeqAux proc true rest
                  ⟨dset st0.results s0 r, st0.errors⟩
              | .error e =>
                  if true then processSeqAux proc true rest
                    ⟨st0.results, dset st0.errors s0 e⟩
                  else .error ⟨st0.results, dset st0.errors s0 e⟩) = .ok st
            rw [hp]
            exact hrun
          · dsimp only at hlen1
            rw [hlen1, dset_length_of_not_dhas _ _ _ hfree0.1,
              List.countP_cons, hp, isOk_ok]
            simp
            omega
          · dsimp only at hlen2
            rw [hlen2, List.countP_cons, hp, isOk_ok]
            simp
          · intro k hk
            exact hframe k (fun hm => hk (List.mem_cons_of_mem _ hm))
          · intro s hs e he
            rcases List.mem_cons.mp hs with rfl | hs2
            · rw [hp] at he
              exact absurd he (by simp)
            · exact herr s hs2 e he
      | error e0 =>
          obtain ⟨st, hrun, hlen1, hlen2, hframe, herr⟩ :=
            ih ⟨st0.results, dset st0.errors s0 e0⟩ hrest (by
              intro s hs
              have hne : ¬ s0 = s := fun he => hs0 (he ▸ hs)
              have hf := hfree s (List.mem_cons_of_mem _ hs)
              constructor
              · exact hf.1
              · show dhas (dset st0.errors s0 e0) s = false
                rw [dhas_eq_isSome, dget_dset, if_neg hne, ← dhas_eq_isSome]
                exact hf.2)
          refine ⟨st, ?_, ?_, ?_, ?_, ?_⟩
          · show (match proc s0 with
              | .ok r => processSeqAux proc true rest
                  ⟨dset st0.results s0 r, st0.errors⟩
              | .error e =>
                  if true then processSeqAux proc true rest
                    ⟨st0.results, dset st0.errors s0 e⟩
                  else .error ⟨st0.results, dset st0.errors s0 e⟩) = .ok st
            rw [hp]
            exact hrun
          · dsimp only at hlen1
            rw [hlen1, List.countP_cons, hp, isOk_error]
            simp
          · dsimp only at hlen2
            rw [hlen2, dset_length_of_not_dhas _ _ _ hfree0.2,
              List.countP_cons, hp, isOk_error]
            simp
            omega
          · intro k hk
            have h1 := hframe k (fun hm => hk (List.mem_cons_of_mem _ hm))
            have hne : ¬ s0 = k := fun he =>
              hk (he ▸ List.mem_cons_self _ _)
            rw [h1]
            show dget (dset st0.errors s0 e0) k = dget st0.errors k
            rw [dget_dset, if_neg hne]
          · intro s hs e he
            rcases List.mem_cons.mp hs with rfl | hs2
            · have he0 : e = e0 := by
                rw [hp] at he
                exact (Except.error.inj he).symm
              subst he0
              rw [hframe s hs0]
              show dget (dset st0.errors s e) s = some e
              rw [dget_dset, if_pos rfl]
            · exact herr s hs2 e he

/-- C5 (amended): with `continue_on_error = true` and *pairwise-distinct*
source paths, a sequential batch run never aborts, the summary counts
`successful_sources`/`failed_sources` as exactly the number of sources whose
processing succeeded/failed, and every failing source's path maps to its
error message in the summary's `errors` dict.  (Results and errors are
keyed by path, so duplicate source paths collapse — the distinctness
hypothesis is what the counterexample forces.) -/
theorem C5_batch_isolation {ρ : Type} (proc : String → Except String ρ)
    (sources : List String) (hnd : sources.Nodup) :
    (processSequential proc sources true).isOk = true
    ∧ ∀ st, processSequential proc sources true = .ok st →
        (generateSummary sources st).total_sources = sources.length
        ∧ (generateSummary sources st).successful_sources
            = sources.countP (fun s => (proc s).isOk)
        ∧ (generateSummary sources st).failed_sources
            = sources.countP (fun s => !(proc s).isOk)
        ∧ ∀ s ∈ sources, ∀ e, proc s = .error e →
            dget (generateSummary sources st).errors s = some e := by
  obtain ⟨st, hrun, hlen1, hlen2, _, herr⟩ :=
    processSeqAux_spec proc sources ⟨[], []⟩ hnd
      (fun s _ => ⟨rfl, rfl⟩)
  constructor
  · show (processSeqAux proc true sources ⟨[], []⟩).isOk = true
    rw [hrun]
    rfl
  · intro st2 hst2
    have hst : st2 = st := Except.ok.inj (hst2.symm.trans hrun)
    refine ⟨rfl, ?_, ?_, ?_⟩
    · show st2.results.length = _
      rw [hst, hlen1]
      simp
    · show st2.errors.length = _
      rw [hst, hlen2]
      simp
    · intro s hs e he
      show dget st2.errors s = some e
      rw [hst]
      exact herr s hs e he

/-- C5 (counterexample): the summary counts are dict *sizes* keyed by path,
so two successful sources sharing a path are reported as
`successful_sources = 1`, not 2 as the claim ("equal to the number of
sources that succeeded") requires. -/
theorem C5_counterexample :
    processSequential (fun _ => (.ok () : Except String Unit)) ["a", "a"] true
      = .ok ⟨[("a", ())], []⟩
    ∧ (generateSummary ["a", "a"]
        (⟨[("a", ())], []⟩ : BatchState Unit)).successful_sources = 1 := by
  exact ⟨rfl, rfl⟩

/-- C5 (witness): three distinct sources, exactly one failing, yield
`successful_sources = 2`, `failed_sources = 1`, and the failing path keyed
in `errors` — the spec's own example. -/
theorem C5_batch_isolation_witness :
    (processSequential
        (fun s => if s = "b" then (.error "no such file" : Except String Unit)
                  else .ok ())
        ["a", "b", "c"] true).isOk = true
    ∧ (generateSummary ["a", "b", "c"]
        (⟨[("a", ()), ("c", ())], [("b", "no such file")]⟩ :
          BatchState Unit)).successful_sources = 2
    ∧ (generateSummary ["a", "b", "c"]
        (⟨[("a", ()), ("c", ())], [("b", "no such file")]⟩ :
          BatchState Unit)).failed_sources = 1
    ∧ dget (generateSummary ["a", "b", "c"]
        (⟨[("a", ()), ("c", ())], [("b", "no such file")]⟩ :
          BatchState Unit)).errors "b" = some "no such file" := by
  have h := C5_batch_isolation
    (fun s => if s = "b" then (.error "no such file" : Except String Unit)
              else .ok ())
    ["a", "b", "c"] (by decide)
  have h2 := h.2 ⟨[("a", ()), ("c", ())], [("b", "no such file")]⟩ rfl
  exact ⟨h.1, h2.2.1.trans (by decide), h2.2.2.1.trans (by decide),
    h2.2.2.2 "b" (by decide) "no such file" rfl⟩

/-- C6 (counterexample): a *present but empty* include list is Python-falsy,
so the code skips the include check entirely and processes the file, while
the claim's rule ("matches at least one include pattern" whenever
`include_patterns` is given) would select nothing. -/
theorem C6_counterexample :
    processDirectoryWithPatterns (some []) (some ["*z*"]) ["a.txt"]
      = ["a.txt"]
    ∧ ([] : List String).any (fun pat => fnmatch "a.txt" pat) = false := by
  exact ⟨rfl, rfl⟩

/-- The claim's selection rule, written from the spec's words (empty pattern
lists read as "no restriction") to compare against the implementation. -/
def claimPatternRule (incl excl : Option (List String)) (f : String) : Bool :=
  (match incl with
   | none => true
   | some pats => (decide (pats = []) || pats.any (fun pat => fnmatch f pat)))
  && !(match excl with
      | none => false
      | some pats => pats.any (fun pat => fnmatch f pat))

/-- The include/exclude test of the pattern loop agrees pointwise with the
claim's rule once empty pattern lists are read as "no restriction". -/
theorem matchesBatchPatterns_eq (incl excl : Option (List String))
    (f : String) :
    matchesBatchPatterns incl excl f = claimPatternRule incl excl f := by
  unfold matchesBatchPatterns pyTruthyList claimPatternRule
  cases incl with
  | none =>
      cases excl with
      | none => simp
      | some pe => by_cases he : pe = [] <;> simp [he]
  | some pi =>
      cases excl with
      | none => by_cases hi : pi = [] <;> simp [hi]
      | some pe =>
          by_cases hi : pi = [] <;> by_cases he : pe = [] <;> simp [hi, he]

/-- C6 (amended): for a directory source carrying at least one *non-empty*
pattern list, the files load-attempted are exactly those whose name matches
some include pattern (no restriction when `include_patterns` is absent *or
empty*) and no exclude pattern; an empty pattern list behaves like an
absent one, and with both lists absent/empty the walk instead defers to
`load_directory`. -/
theorem C6_directory_patterns (incl excl : Option (List String))
    (files : List String)
    (h : (pyTruthyList incl || pyTruthyList excl) = true) :
    processDirectoryWithPatterns incl excl files
      = files.filter (claimPatternRule incl excl) := by
  unfold processDirectoryWithPatterns
  rw [if_neg (by
    intro hc
    rcases Bool.and_eq_true_iff.mp hc with ⟨h1, h2⟩
    rcases Bool.or_eq_true_iff.mp h with h3 | h3
    · rw [h3] at h1
      exact Bool.noConfusion h1
    · rw [h3] at h2
      exact Bool.noConfusion h2)]
  exact List.filter_congr (fun f _ => matchesBatchPatterns_eq incl excl f)

/-- C6 (witness): the spec's five-file example — only `important_doc.txt`
and `final_report.md` survive `["*.txt", "*.md"]` minus
`["*draft*", "*temp*"]`. -/
theorem C6_directory_patterns_witness :
    processDirectoryWithPatterns (some ["*.txt", "*.md"])
        (some ["*draft*", "*temp*"])
        ["important_doc.txt", "draft_notes.txt", "final_report.md",
         "temp_file.tmp", "backup_data.bak"]
      = ["important_doc.txt", "final_report.md"] := by
  rw [C6_directory_patterns (some ["*.txt", "*.md"])
    (some ["*draft*", "*temp*"])
    ["important_doc.txt", "draft_notes.txt", "final_report.md",
     "temp_file.tmp", "backup_data.bak"] (by decide)]
  decide

/-! ### C1 helper lemmas -/

theorem data_ne_nil_of_ne_empty {p : String} (h : p ≠ "") : p.data ≠ [] := by
  intro h0
  exact h (String.ext h0)

/-- Every piece collected by the group loop is a stripped, non-empty text of
at least `min_text_length` characters. -/
theorem foldl_combineStep_pieces (cfg : LoaderConfig) (ges : List Element)
    (acc : CombineAcc)
    (hacc : ∀ p ∈ acc.pieces,
      pyStrip p = p ∧ cfg.min_text_length ≤ (p.length : Int) ∧ p ≠ "") :
    ∀ p ∈ (ges.foldl (combineStep cfg) acc).pieces,
      pyStrip p = p ∧ cfg.min_text_length ≤ (p.length : Int) ∧ p ≠ "" := by
  induction ges generalizing acc with
  | nil => exact hacc
  | cons e rest ih =>
      refine ih (combineStep cfg acc e) ?_
      intro p hp
      unfold combineStep at hp
      by_cases hc : (decide (pyStrip e.text ≠ "")
          && decide (cfg.min_text_length ≤ ((pyStrip e.text).length : Int)))
          = true
      · rw [if_pos hc] at hp
        rcases List.mem_append.mp hp with hold | hnew
        · exact hacc p hold
        · have hpe : p = pyStrip e.text := List.mem_singleton.mp hnew
          rcases Bool.and_eq_true_iff.mp hc with ⟨h1, h2⟩
          subst hpe
          exact ⟨pyStrip_idem e.text, of_decide_eq_true h2,
            of_decide_eq_true h1⟩
      · rw [if_neg hc] at hp
        exact hacc p hp

/-- Stripping the blank-line join of the collected pieces never drops below
the first piece's length. -/
theorem pyStrip_pyJoin_length_ge (sep p : String) (rest : List String)
    (hp : pyStrip p = p) (hne : p ≠ "") :
    p.length ≤ (pyStrip (pyJoin sep (p :: rest))).length := by
  have hdata : stripL p.data = p.data := congrArg String.data hp
  have hnil : p.data ≠ [] := data_ne_nil_of_ne_empty hne
  cases rest with
  | nil =>
      have h1 : pyJoin sep [p] = p := rfl
      rw [h1, hp]
  | cons x xs =>
      have hjoin : pyJoin sep (p :: x :: xs)
          = p ++ sep ++ pyJoin sep (x :: xs) := rfl
      have hd2 : (pyJoin sep (p :: x :: xs)).data
          = p.data ++ (sep.data ++ (pyJoin sep (x :: xs)).data) := by
        rw [hjoin, String.data_append, String.data_append, List.append_assoc]
      have hlen : (pyStrip (pyJoin sep (p :: x :: xs))).length
          = (stripL ((pyJoin sep (p :: x :: xs)).data)).length := rfl
      rw [hlen, hd2]
      exact stripL_append_length_ge p.data
        (sep.data ++ (pyJoin sep (x :: xs)).data) hdata hnil

/-- Every combined (non-chunked) document has trimmed text of at least
`min_text_length` characters — the group loop re-checks each piece. -/
theorem combineGroup_strip_length (cfg : LoaderConfig) (ges : List Element)
    (d : Doc) (hd : combineGroup cfg ges = some d) :
    cfg.min_text_length ≤ (((pyStrip d.page_content).length : Int)) := by
  unfold combineGroup at hd
  by_cases hne : (ges.foldl (combineStep cfg) ⟨[], [], []⟩).pieces = []
  · rw [if_pos hne] at hd
    exact Option.noConfusion hd
  · rw [if_neg hne] at hd
    have hdval := Option.some.inj hd
    obtain ⟨p0, rest, hps⟩ := List.exists_cons_of_ne_nil hne
    have hinv := foldl_combineStep_pieces cfg ges ⟨[], [], []⟩
      (by intro p hp; exact absurd hp (List.not_mem_nil p))
    have h0 := hinv p0 (by rw [hps]; exact List.mem_cons_self _ _)
    have hcontent : d.page_content = pyJoin "\n\n" (p0 :: rest) := by
      rw [← hdval, ← hps]
    have hglen : p0.length ≤ (pyStrip d.page_content).length := by
      rw [hcontent]
      exact pyStrip_pyJoin_length_ge "\n\n" p0 rest h0.1 h0.2.2
    calc cfg.min_text_length ≤ (p0.length : Int) := h0.2.1
      _ ≤ ((pyStrip d.page_content).length : Int) := by
          exact_mod_cast Nat.cast_le.mpr hglen

theorem createCombinedDocuments_strip_length (cfg : LoaderConfig)
    (es : List Element) :
    ∀ d ∈ (createCombinedDocuments cfg es).documents,
      cfg.min_text_length ≤ ((pyStrip d.page_content).length : Int) := by
  intro d hd
  unfold createCombinedDocuments at hd
  obtain ⟨a, _, ha⟩ := List.mem_filterMap.mp hd
  exact combineGroup_strip_length cfg a.2 d ha

theorem createChunkedDocuments_length (cfg : LoaderConfig)
    (es : List Element) :
    ∀ d ∈ (createChunkedDocuments cfg es).documents,
      cfg.min_text_length ≤ (d.page_content.length : Int) := by
  intro d hd
  unfold createChunkedDocuments at hd
  obtain ⟨e, _, he⟩ := List.mem_filterMap.mp hd
  by_cases hlt : (e.text.length : Int) < cfg.min_text_length
  · rw [if_pos hlt] at he
    exact Option.noConfusion he
  · rw [if_neg hlt] at he
    have hdval := Option.some.inj he
    rw [← hdval]
    exact not_lt.mp hlt

theorem mem_filterByLength (L : Int) (es : List Element) (e : Element) :
    e ∈ filterByLength L es ↔
      e ∈ es ∧ L ≤ ((pyStrip e.text).length : Int) := by
  unfold filterByLength
  rw [List.mem_filter]
  simp

/-- Non-chunked output texts, in every output shape, keep the trimmed-length
bound of the filtered elements. -/
theorem formatOutput_texts_bound (cfg : LoaderConfig) (xs : List Element)
    (hcs : cfg.chunking_strategy = none)
    (hxs : ∀ e ∈ xs, cfg.min_text_length ≤ ((pyStrip e.text).length : Int)) :
    ∀ t ∈ (formatOutput cfg xs).texts,
      cfg.min_text_length ≤ ((pyStrip t).length : Int) := by
  intro t ht
  cases hof : cfg.output_format with
  | elements =>
      rw [formatOutput, hof] at ht
      obtain ⟨e, he, rfl⟩ := List.mem_map.mp ht
      exact hxs e he
  | documents =>
      rw [formatOutput, hof] at ht
      rw [hcs] at ht
      simp only [Option.isSome_none, Bool.false_eq_true, if_false] at ht
      obtain ⟨d, hd, rfl⟩ := List.mem_map.mp ht
      exact createCombinedDocuments_strip_length cfg xs d hd
  | text =>
      rw [formatOutput, hof] at ht
      obtain ⟨ti, hti, rfl⟩ := List.mem_map.mp ht
      obtain ⟨e, he, rfl⟩ := List.mem_map.mp hti
      exact hxs e he
  | json =>
      rw [formatOutput, hof] at ht
      obtain ⟨e, he, rfl⟩ := List.mem_map.mp ht
      exact hxs e he

/-- C1 (counterexample): with `min_text_length = 3` and chunking enabled, a
chunk whose raw text is `" ab "` (4 characters, 2 after trimming) passes the
chunked-document guard — which compares *untrimmed* length — so the output
contains a document whose trimmed text is shorter than 3. -/
theorem C1_counterexample :
    ¬ (∀ t ∈ (processElements
        ⟨.documents, false, some .basic, 1000, 100, 3, false⟩
        (fun _ => [⟨" ab ", none, [], none⟩])
        [⟨"hello", none, [], none⟩]).texts,
        (3 : Int) ≤ ((pyStrip t).length : Int)) := by
  decide

/-- C1 (amended): for `min_text_length = L > 0`: the element filter keeps
exactly the elements whose trimmed text has at least `L` characters; with
chunking disabled, every element/document/text appearing in the formatted
output of the conversion pipeline has trimmed text of at least `L`
characters; with chunking enabled and `documents` output, documents are
dropped by *untrimmed* length instead, so every output document has raw
text of at least `L` characters (but, per the counterexample, possibly
fewer after trimming). -/
theorem C1_min_text_length_filtering (cfg : LoaderConfig)
    (chunker : List Element → List Element) (es : List Element)
    (hL : 0 < cfg.min_text_length) :
    (∀ e, e ∈ filterByLength cfg.min_text_length es ↔
        e ∈ es ∧ cfg.min_text_length ≤ ((pyStrip e.text).length : Int))
    ∧ (cfg.chunking_strategy = none →
        ∀ t ∈ (processElements cfg chunker es).texts,
          cfg.min_text_length ≤ ((pyStrip t).length : Int))
    ∧ (∀ strat, cfg.chunking_strategy = some strat →
        cfg.output_format = .documents →
        ∀ t ∈ (processElements cfg chunker es).texts,
          cfg.min_text_length ≤ (t.length : Int)) := by
  refine ⟨fun e => mem_filterByLength cfg.min_text_length es e, ?_, ?_⟩
  · intro hcs
    have hpe : processElements cfg chunker es
        = formatOutput cfg (filterByLength cfg.min_text_length
            (if cfg.remove_headers_footers then removeHeadersFooters es
             else es)) := by
      unfold processElements
      rw [hcs]
      simp [hL]
    rw [hpe]
    refine formatOutput_texts_bound cfg _ hcs ?_
    intro e he
    exact ((mem_filterByLength cfg.min_text_length _ e).mp he).2
  · intro strat hcs hof t ht
    have hpe : processElements cfg chunker es
        = formatOutput cfg (chunker (filterByLength cfg.min_text_length
            (if cfg.remove_headers_footers then removeHeadersFooters es
             else es))) := by
      unfold processElements
      rw [hcs]
      simp [hL]
    rw [hpe, formatOutput, hof, hcs] at ht
    simp only [Option.isSome_some, if_true] at ht
    obtain ⟨d, hd, rfl⟩ := List.mem_map.mp ht
    exact createChunkedDocuments_length cfg _ d hd

/-- C1 (witness): a long element flows through the default (non-chunked)
pipeline into a combined document whose trimmed text meets the bound. -/
theorem C1_min_text_length_filtering_witness :
    "This is long enough text."
        ∈ (processElements ⟨.documents, true, none, 1000, 100, 10, true⟩
            id [⟨"This is long enough text.", some "NarrativeText", [],
                 none⟩]).texts
    ∧ (10 : Int) ≤ ((pyStrip "This is long enough text.").length : Int) := by
  refine ⟨by decide, ?_⟩
  exact (C1_min_text_length_filtering
      ⟨.documents, true, none, 1000, 100, 10, true⟩ id
      [⟨"This is long enough text.", some "NarrativeText", [], none⟩]
      (by decide)).2.1 rfl "This is long enough text." (by decide)

end UDL
